import Mathlib

/-!
Verification of the `cfgm` configuration-resolution package.

The option builders (`options`, `WithCommand`, `WithAppName`, `WithConfigPaths`,
`WithBaseDir`, `WithCallerSkip`, `WithEnvPrefix`, `WithEnvBinding`,
`WithEnvBindings`, `WithEnvBindKey`, `WithoutTemplateExpansion`) are embedded
directly from `src/pkg/cfgm/options.go`.  The resolution pipeline itself
(base-directory resolution, config-file discovery, template expansion, source
merging) is not part of the shipped source tree; those parts are modelled from
the specification, and each such definition is marked `Modelled from the spec:`.

Strings of the Go program are Lean `String`s; raw config-file text is modelled
as `List Char` so the template scanner can be written by direct recursion.
Go maps (`map[string]string`) are modelled as association lists with unique
keys, compared extensionally through their lookup function (Go maps are
unordered, so two maps are equal exactly when their lookups agree).
-/

set_option autoImplicit false

namespace Cfgm

/-- Lookup in an association list: first entry whose key matches.  Used both
for the merged configuration tree (where a freshly prepended overlay entry
shadows older entries) and for the env-binding map. -/
def lookupKV : List (String × String) → String → Option String
  | [], _ => none
  | p :: rest, k => if p.1 = k then some p.2 else lookupKV rest k

/-- Lookup of the most recently appended entry for a key (entries later in the
list win).  Used to state the accumulated-union law for env bindings. -/
def lookupLastKV (ps : List (String × String)) (k : String) : Option String :=
  lookupKV ps.reverse k

/-- A merged configuration tree: dotted key path to opaque scalar value,
later overlays prepended so that they shadow earlier entries. -/
abbrev Tree := List (String × String)

/-- A CLI flag as seen through the flag-command collaborator: the
configuration key it corresponds to, its current value, and whether the
caller explicitly set it on the command line (as opposed to the flag holding
its library default). -/
structure Flag where
  key : String
  value : String
  isSet : Bool

/-- The external flag command (`*cli.Command`): modelled at its interface
boundary as the list of flags it carries, each knowing its value and whether
it was explicitly set. -/
structure Cmd where
  flags : List Flag

/-- The `options` struct of `src/pkg/cfgm/options.go`.  `envPref` is the Go
field `envPrefix`; `envBindings` (a Go `map[string]string`) is an association
list with unique keys. -/
structure options where
  appName : String
  cmd : Option Cmd
  configPaths : List String
  baseDir : String
  baseDirSet : Bool
  envPref : String
  envBindings : List (String × String)
  envBindKey : String
  noTemplateExpansion : Bool
  callerSkip : Nat

/-- The zero value of the `options` struct (what `Load` starts from before
applying the option functions). -/
def defaultOptions : options :=
  { appName := ""
    cmd := none
    configPaths := []
    baseDir := ""
    baseDirSet := false
    envPref := ""
    envBindings := []
    envBindKey := ""
    noTemplateExpansion := false
    callerSkip := 0 }

/-- `WithCommand`: sets the CLI command used for flag overlays. -/
def withCommand (c : Cmd) (o : options) : options :=
  { o with cmd := some c }

/-- `WithAppName`: sets the application name. -/
def withAppName (name : String) (o : options) : options :=
  { o with appName := name }

/-- `WithConfigPaths`: sets the ordered config-file search paths. -/
def withConfigPaths (paths : List String) (o : options) : options :=
  { o with configPaths := paths }

/-- `WithBaseDir`: records the given base directory and sets the explicit
`baseDirSet` flag, so that an empty string is distinguishable from the option
never having been applied. -/
def withBaseDir (path : String) (o : options) : options :=
  { o with baseDir := path, baseDirSet := true }

/-- `WithCallerSkip`: sets the stack-skip depth for project-root detection. -/
def withCallerSkip (skip : Nat) (o : options) : options :=
  { o with callerSkip := skip }

/-- `WithEnvPrefix` (Go name `WithEnvPrefix`): sets the environment-variable
prefix enabling prefix-derived bindings. -/
def withEnvPref (p : String) (o : options) : options :=
  { o with envPref := p }

/-- Go map assignment `m[k] = v`: the entry for `k` is replaced (keys stay
unique), all other entries are kept. -/
def setBinding (m : List (String × String)) (k v : String) : List (String × String) :=
  (k, v) :: m.filter (fun p => p.1 != k)

/-- `WithEnvBinding`: binds a single environment variable to a config path
via `o.envBindings[envKey] = configPath` (the nil-map initialisation of the
Go code is implicit in the list model). -/
def withEnvBinding (envKey configPath : String) (o : options) : options :=
  { o with envBindings := setBinding o.envBindings envKey configPath }

/-- `WithEnvBindings`: batch-binds via `maps.Copy(o.envBindings, bindings)`,
which writes every entry of the source map into the destination.  The source
Go map has unique keys; it is passed here as a list of pairs. -/
def withEnvBindings (bindings : List (String × String)) (o : options) : options :=
  { o with envBindings := bindings.foldl (fun m p => setBinding m p.1 p.2) o.envBindings }

/-- `WithEnvBindKey`: names the in-file node that holds binding pairs. -/
def withEnvBindKey (key : String) (o : options) : options :=
  { o with envBindKey := key }

/-- `WithoutTemplateExpansion`: disables template expansion of file text. -/
def withoutTemplateExpansion (o : options) : options :=
  { o with noTemplateExpansion := true }

/-- Modelled from the spec: the environment-variable-name derivation of the
prefix-derived binding source (the derivation routine itself is not in the
shipped source; its rule is documented on `WithEnvPrefix`): the prefix is
concatenated with the key transformed character by character, every `.` and
`-` becoming `_` and every other character uppercased. -/
def deriveEnvVarChars (k : List Char) : List Char :=
  k.map (fun c => if c = '.' ∨ c = '-' then '_' else c.toUpper)

/-- Modelled from the spec: `deriveEnvVar(P, K)`, prefix plus transformed key. -/
def deriveEnvVar (p k : String) : String :=
  ⟨p.data ++ deriveEnvVarChars k.data⟩

/-- The spec formula, stated independently of the implementation: replace `.`
and `-` by `_`, then uppercase the whole key, and prepend the prefix. -/
def specReplaceChars (k : List Char) : List Char :=
  k.map (fun c => if c = '.' ∨ c = '-' then '_' else c)

/-- The spec-formula derivation `P + upper(replace(K))`. -/
def deriveEnvVarSpec (p k : String) : String :=
  ⟨p.data ++ (specReplaceChars k.data).map Char.toUpper⟩

theorem deriveEnvVarChars_eq (k : List Char) :
    deriveEnvVarChars k = (specReplaceChars k).map Char.toUpper := by
  induction k with
  | nil => rfl
  | cons c rest ih =>
    simp only [deriveEnvVarChars, specReplaceChars, List.map_cons] at *
    refine congrArg₂ List.cons ?_ ih
    by_cases h : c = '.' ∨ c = '-'
    · simp only [if_pos h]
      rcases h with h | h <;> subst h <;> decide
    · simp [if_neg h]

/-! ### Template expander (Modelled from the spec)

The expander is not in the shipped source; `WithoutTemplateExpansion`'s doc
comment and spec section 4.3 describe it: scan the raw text left to right,
substitute the recognized expression forms found between the `\x7b\x7b` and
`\x7d\x7d` markers, and fail hard on unterminated or malformed expressions.
The scanner recursion is written with a fuel argument equal to the text
length, so that every definition stays structurally recursive and
kernel-evaluable; each scanner step consumes at least one character, so the
fuel never runs out on the initial call. -/

/-- Environment table as seen by the expander: variable name (as characters)
to value (as characters). -/
abbrev EnvC := List Char → Option (List Char)

/-- Error kinds of template expansion (`TemplateSyntaxError` in the spec):
an unterminated expression, a malformed expression, or fuel exhaustion
(unreachable when the scanner is started with fuel at least the text
length). -/
inductive TemplErr where
  | unterminated
  | malformed
  | fuel
  deriving DecidableEq, Repr

/-- The opening-brace character of a template marker. -/
def openB : Char := '\x7b'

/-- The closing-brace character of a template marker. -/
def closeB : Char := '\x7d'

/-- Token of the expression language between the markers: an identifier,
a quoted string literal, a dotted variable reference, or a pipe. -/
inductive Tok where
  | ident (s : List Char)
  | str (s : List Char)
  | dotvar (s : List Char)
  | pipe
  deriving DecidableEq, Repr

/-- A recognized expression form (Modelled from the spec): `env "VAR"`,
`env "VAR" "default"` (the `.VAR | default "fallback"` form has the same
semantics and parses to the same constructor), and `coalesce` over a
nonempty argument list. -/
inductive CoalArg where
  | var (n : List Char)
  | lit (s : List Char)
  deriving DecidableEq, Repr

/-- Parsed template expression. -/
inductive TExpr where
  | envE (v : List Char)
  | envD (v d : List Char)
  | coal (args : List CoalArg)
  deriving DecidableEq, Repr

/-- Characters allowed in identifiers and variable names. -/
def isIdentChar (c : Char) : Bool :=
  c.isAlphanum || c = '_' || c = '-'

/-- Read a string literal body up to the closing quote; `none` when the
quote is never closed. -/
def readStr : List Char → Option (List Char × List Char)
  | [] => none
  | c :: rest =>
    if c = '\"' then some ([], rest)
    else (readStr rest).map (fun p => (c :: p.1, p.2))

/-- Tokenize the text between the markers (fuel-indexed; fuel equal to the
input length suffices since every step consumes at least one character). -/
def tokenizeF : Nat → List Char → Option (List Tok)
  | _, [] => some []
  | 0, _ :: _ => none
  | fuel + 1, c :: rest =>
    if c = ' ' then tokenizeF fuel rest
    else if c = '\"' then
      match readStr rest with
      | none => none
      | some (s, rest') => (tokenizeF fuel rest').map (fun ts => Tok.str s :: ts)
    else if c = '.' then
      let s := rest.takeWhile isIdentChar
      if s.isEmpty then none
      else (tokenizeF fuel (rest.dropWhile isIdentChar)).map (fun ts => Tok.dotvar s :: ts)
    else if c = '|' then
      (tokenizeF fuel rest).map (fun ts => Tok.pipe :: ts)
    else if isIdentChar c then
      (tokenizeF fuel (rest.dropWhile isIdentChar)).map
        (fun ts => Tok.ident (c :: rest.takeWhile isIdentChar) :: ts)
    else none

/-- The `env` keyword. -/
def kwEnv : List Char := ['e', 'n', 'v']

/-- The `default` keyword. -/
def kwDefault : List Char := ['d', 'e', 'f', 'a', 'u', 'l', 't']

/-- The `coalesce` keyword. -/
def kwCoalesce : List Char := ['c', 'o', 'a', 'l', 'e', 's', 'c', 'e']

/-- Interpret a token as a `coalesce` argument. -/
def toCoalArg : Tok → Option CoalArg
  | .dotvar v => some (.var v)
  | .str s => some (.lit s)
  | _ => none

/-- Parse a token list into one of the recognized expression forms;
`none` means the expression is malformed. -/
def parseToks (ts : List Tok) : Option TExpr :=
  match ts with
  | Tok.ident e :: rest =>
    if e = kwEnv then
      match rest with
      | [Tok.str v] => some (.envE v)
      | [Tok.str v, Tok.str d] => some (.envD v d)
      | _ => none
    else if e = kwCoalesce then
      match rest with
      | [] => none
      | _ => (rest.mapM toCoalArg).map TExpr.coal
    else none
  | [Tok.dotvar v, Tok.pipe, Tok.ident d, Tok.str f] =>
    if d = kwDefault then some (.envD v f) else none
  | _ => none

/-- Tokenize-and-parse the inner text of one `\x7b\x7b ... \x7d\x7d` region. -/
def parseInner (inner : List Char) : Option TExpr :=
  (tokenizeF inner.length inner).bind parseToks

/-- Value of a variable, empty when unset. -/
def lookupEnvC (env : EnvC) (v : List Char) : List Char :=
  (env v).getD []

/-- Evaluate a `coalesce` argument list: the first argument that is a set,
non-empty variable or a non-empty literal wins; the trailing argument is the
fallback and is taken as is. -/
def evalCoal (env : EnvC) : List CoalArg → List Char
  | [] => []
  | [a] =>
    match a with
    | .lit s => s
    | .var v => lookupEnvC env v
  | a :: rest =>
    let val :=
      match a with
      | .lit s => s
      | .var v => lookupEnvC env v
    if val = [] then evalCoal env rest else val

/-- Evaluate a recognized expression against the environment: `env "VAR"` is
the variable's value or empty when unset; the defaulted forms fall back to
the default when the variable is unset or empty. -/
def evalTExpr (env : EnvC) : TExpr → List Char
  | .envE v => lookupEnvC env v
  | .envD v d =>
    match env v with
    | some s => if s = [] then d else s
    | none => d
  | .coal args => evalCoal env args

/-- Split the text after an opening marker at the first closing
`\x7d\x7d` marker: returns the inner text and the remainder, or `none`
when the expression is unterminated. -/
def splitClose : List Char → Option (List Char × List Char)
  | [] => none
  | [c] => if c = closeB then none else none
  | a :: b :: rest =>
    if a = closeB ∧ b = closeB then some ([], rest)
    else (splitClose (b :: rest)).map (fun p => (a :: p.1, p.2))

/-- The scanner (Modelled from the spec): copy characters until an opening
`\x7b\x7b` marker, then find the closing marker, parse and evaluate the inner
expression, substitute its value, and continue after the closing marker.
Unterminated or malformed expressions abort with an error. -/
def expandAuxF (env : EnvC) : Nat → List Char → Except TemplErr (List Char)
  | _, [] => .ok []
  | 0, _ :: _ => .error .fuel
  | fuel + 1, a :: rest =>
    match rest with
    | [] => .ok [a]
    | b :: rest2 =>
      if a = openB ∧ b = openB then
        match splitClose rest2 with
        | none => .error .unterminated
        | some (inner, rest') =>
          match parseInner inner with
          | none => .error .malformed
          | some e =>
            match expandAuxF env fuel rest' with
            | .error er => .error er
            | .ok tail => .ok (evalTExpr env e ++ tail)
      else
        match expandAuxF env fuel rest with
        | .error er => .error er
        | .ok tail => .ok (a :: tail)

/-- Modelled from the spec: `expand(rawText, disabled)`.  When the options
disable expansion the raw text is returned unchanged; otherwise the scanner
runs with fuel equal to the text length. -/
def expandTemplate (o : options) (env : EnvC) (t : List Char) : Except TemplErr (List Char) :=
  if o.noTemplateExpansion then .ok t else expandAuxF env t.length t

/-- Whether the text still contains an opening template marker, i.e.
unresolved template syntax. -/
def hasOpenMarker : List Char → Bool
  | a :: b :: rest => (a = openB && b = openB) || hasOpenMarker (b :: rest)
  | _ => false

theorem splitClose_length {l inner rest : List Char}
    (h : splitClose l = some (inner, rest)) : rest.length + 2 ≤ l.length := by
  induction l generalizing inner rest with
  | nil => simp [splitClose] at h
  | cons a l ih =>
    match l with
    | [] => simp [splitClose] at h
    | b :: l2 =>
      rw [splitClose] at h
      split at h
      · cases h
        simp
      · cases hs : splitClose (b :: l2) with
        | none => rw [hs] at h; cases h
        | some p =>
          obtain ⟨i, r⟩ := p
          rw [hs] at h
          cases h
          have := ih hs
          simpa using Nat.le_succ_of_le this

theorem expandAuxF_no_marker (env : EnvC) :
    ∀ (fuel : Nat) (l : List Char), l.length ≤ fuel → hasOpenMarker l = false →
      expandAuxF env fuel l = .ok l := by
  intro fuel
  induction fuel with
  | zero =>
    intro l hlen _
    match l with
    | [] => rfl
    | c :: rest => simp at hlen
  | succ fuel ih =>
    intro l hlen hmark
    match l with
    | [] => rfl
    | [a] => rfl
    | a :: b :: rest =>
      rw [hasOpenMarker, Bool.or_eq_false_iff] at hmark
      obtain ⟨h1, h2⟩ := hmark
      have hne : ¬(a = openB ∧ b = openB) := by
        intro ⟨ha, hb⟩
        simp [ha, hb] at h1
      rw [expandAuxF]
      simp only [if_neg hne]
      have hrec : expandAuxF env fuel (b :: rest) = .ok (b :: rest) :=
        ih (b :: rest) (by simpa using Nat.lt_succ_iff.mp (by simpa using hlen)) h2
      rw [hrec]

/-! ### Path resolution, discovery and source merging (Modelled from the spec) -/

/-- The read-only outside world of one resolution call: the filesystem
(path to file contents, `none` when the file does not exist), the process
environment, the current working directory (absolute) and the auto-detected
project root (the base-dir fallback, which per the spec never fails). -/
structure World where
  fs : String → Option (List Char)
  env : String → Option String
  cwd : String
  projectRoot : String

/-- The expander's view of the world's environment table. -/
def envC (w : World) : EnvC :=
  fun cs => (w.env ⟨cs⟩).map String.data

/-- Whether a path is absolute (starts with a slash); absolute candidates
are not resolved against the base directory. -/
def isAbsPath (p : String) : Bool :=
  match p.data with
  | '/' :: _ => true
  | _ => false

/-- Modelled from the spec: resolve a candidate path against the base
directory; absolute paths are unaffected. -/
def resolvePath (baseDir p : String) : String :=
  if isAbsPath p then p else baseDir ++ "/" ++ p

/-- Modelled from the spec: `resolveBaseDir(options)`.  When an explicit base
directory was set, the empty string maps to the current working directory and
any other value is used as given; when it was never set, the project-root
auto-detection result is used.  It never fails. -/
def resolveBaseDir (o : options) (w : World) : String :=
  if o.baseDirSet then
    if o.baseDir = "" then w.cwd else o.baseDir
  else w.projectRoot

/-- Modelled from the spec: the conventional candidate set derived from the
application name (hidden dotfile variants in the base directory), used when
no explicit paths were configured. -/
def defaultPaths (name : String) : List String :=
  ["." ++ name ++ ".yaml", "." ++ name ++ ".yml"]

/-- The ordered candidate list: the explicitly configured paths, or the
app-name-derived defaults when none were configured. -/
def candidatePaths (o : options) : List String :=
  if o.configPaths.isEmpty then defaultPaths o.appName else o.configPaths

/-- First candidate (in list order) whose resolved path exists on the
filesystem. -/
def firstExisting (w : World) (baseDir : String) : List String → Option String
  | [] => none
  | p :: rest =>
    if (w.fs (resolvePath baseDir p)).isSome then some (resolvePath baseDir p)
    else firstExisting w baseDir rest

/-- Modelled from the spec: `discoverConfigFile(options, baseDir)`; `none` is
the non-fatal "not found" outcome. -/
def discoverConfigFile (o : options) (w : World) (baseDir : String) : Option String :=
  firstExisting w baseDir (candidatePaths o)

/-- The prefix-derived environment overlay (binding source 1): when a prefix
is configured, every known configuration key whose derived variable is set in
the environment contributes an entry. -/
def prefixOverlay (o : options) (w : World) (knownKeys : List String) : Tree :=
  if o.envPref = "" then []
  else knownKeys.filterMap (fun k => (w.env (deriveEnvVar o.envPref k)).map (fun v => (k, v)))

/-- Overlay obtained from a list of (environment variable, config path)
bindings: bindings whose variable is unset are skipped. -/
def bindListOverlay (w : World) (bs : List (String × String)) : Tree :=
  bs.filterMap (fun p => (w.env p.1).map (fun v => (p.2, v)))

/-- The file-declared bindings (binding source 2): when an env-bind key is
configured, every entry of the decoded file tree under that node, with the
node path stripped from the entry key, is an (envVar, configPath) pair. -/
def fileBindingsOf (o : options) (fileTree : Tree) : List (String × String) :=
  if o.envBindKey = "" then []
  else fileTree.filterMap (fun p =>
    if p.1.startsWith (o.envBindKey ++ ".") then
      some (p.1.drop (o.envBindKey.length + 1), p.2)
    else none)

/-- The CLI overlay (the highest-priority source): only flags the caller
explicitly set contribute entries; flags left at their library default are
skipped. -/
def flagOverlay (c : Cmd) : Tree :=
  c.flags.filterMap (fun f => if f.isSet then some (f.key, f.value) else none)

/-- Overlay one tree on another: entries of `hi` shadow entries of `lo`
under `lookupKV`. -/
def overlayT (lo hi : Tree) : Tree := hi ++ lo

/-- Modelled from the spec: merger steps 1 to 5 — defaults, then the decoded
file tree, then the three environment binding sources in increasing
priority. -/
def mergeEnvSources (o : options) (w : World) (fileTree : Tree) (knownKeys : List String)
    (defaults : Tree) : Tree :=
  overlayT
    (overlayT
      (overlayT (overlayT defaults fileTree) (prefixOverlay o w knownKeys))
      (bindListOverlay w (fileBindingsOf o fileTree)))
    (bindListOverlay w o.envBindings)

/-- Modelled from the spec: the full merge — environment sources, then, when
a flag command was supplied, the explicitly-set CLI flags on top. -/
def mergeAll (o : options) (w : World) (fileTree : Tree) (knownKeys : List String)
    (defaults : Tree) : Tree :=
  match o.cmd with
  | none => mergeEnvSources o w fileTree knownKeys defaults
  | some c => overlayT (mergeEnvSources o w fileTree knownKeys defaults) (flagOverlay c)

/-- Fatal resolution errors: template-expansion failure, decoder failure on
the expanded text, and a discovered file becoming unreadable. -/
inductive ResolveErr where
  | templateError (e : TemplErr)
  | decodeError (e : String)
  | readError
  deriving DecidableEq, Repr

/-- Modelled from the spec: `resolve(options, decode)`.  Discover the config
file; when found, expand and decode it (any failure aborts the whole
resolution with no partial result); then merge all sources in precedence
order. -/
def resolve (o : options) (w : World) (decode : List Char → Except String Tree)
    (defaults : Tree) (knownKeys : List String) : Except ResolveErr Tree :=
  match discoverConfigFile o w (resolveBaseDir o w) with
  | none => .ok (mergeAll o w [] knownKeys defaults)
  | some path =>
    match w.fs path with
    | none => .error .readError
    | some raw =>
      match expandTemplate o (envC w) raw with
      | .error e => .error (.templateError e)
      | .ok expanded =>
        match decode expanded with
        | .error e => .error (.decodeError e)
        | .ok fileTree => .ok (mergeAll o w fileTree knownKeys defaults)

/-! ### Per-source merged values, used to state the precedence law -/

/-- Value the CLI-flag source supplies for a key (`none` when no command was
given or no explicitly-set flag targets the key). -/
def flagSourceVal (o : options) (k : String) : Option String :=
  match o.cmd with
  | none => none
  | some c => lookupKV (flagOverlay c) k

/-- Value the code-declared binding source supplies for a key. -/
def codeBindSourceVal (o : options) (w : World) (k : String) : Option String :=
  lookupKV (bindListOverlay w o.envBindings) k

/-- Value the file-declared binding source supplies for a key. -/
def fileBindSourceVal (o : options) (w : World) (fileTree : Tree) (k : String) : Option String :=
  lookupKV (bindListOverlay w (fileBindingsOf o fileTree)) k

/-- Value the prefix-derived binding source supplies for a key. -/
def prefixSourceVal (o : options) (w : World) (knownKeys : List String) (k : String) :
    Option String :=
  lookupKV (prefixOverlay o w knownKeys) k

/-! ### Lookup lemmas -/

theorem lookupKV_append (l1 l2 : List (String × String)) (k : String) :
    lookupKV (l1 ++ l2) k = (lookupKV l1 k).orElse (fun _ => lookupKV l2 k) := by
  induction l1 with
  | nil => simp [lookupKV, Option.orElse]
  | cons p rest ih =>
    by_cases h : p.1 = k
    · simp [lookupKV, h, Option.orElse]
    · simp [lookupKV, h, ih]

theorem lookupKV_overlayT (lo hi : Tree) (k : String) :
    lookupKV (overlayT lo hi) k = (lookupKV hi k).orElse (fun _ => lookupKV lo k) :=
  lookupKV_append hi lo k

/-! ### Env-binding map lemmas -/

theorem lookupKV_filter_ne (m : List (String × String)) (k q : String) (h : ¬k = q) :
    lookupKV (m.filter (fun p => p.1 != k)) q = lookupKV m q := by
  induction m with
  | nil => rfl
  | cons p rest ih =>
    rw [List.filter_cons]
    by_cases hpk : p.1 = k
    · have hb : (p.1 != k) = false := by simp [hpk]
      have hpq : ¬p.1 = q := fun e => h (hpk.symm.trans e)
      rw [hb]
      simp only [Bool.false_eq_true, if_false, ih]
      rw [lookupKV, if_neg hpq]
    · have hb : (p.1 != k) = true := by simp [hpk]
      rw [hb]
      simp only [if_true]
      by_cases hpq : p.1 = q
      · rw [lookupKV, if_pos hpq, lookupKV, if_pos hpq]
      · rw [lookupKV, if_neg hpq, lookupKV, if_neg hpq, ih]

theorem lookupKV_setBinding (m : List (String × String)) (k v q : String) :
    lookupKV (setBinding m k v) q = if k = q then some v else lookupKV m q := by
  by_cases h : k = q
  · simp [setBinding, lookupKV, h]
  · simp [setBinding, lookupKV, h, lookupKV_filter_ne m k q h]

theorem lookupKV_foldl_setBinding (bs : List (String × String))
    (m : List (String × String)) (q : String) :
    lookupKV (bs.foldl (fun acc p => setBinding acc p.1 p.2) m) q =
      (lookupLastKV bs q).orElse (fun _ => lookupKV m q) := by
  induction bs generalizing m with
  | nil => simp [lookupLastKV, lookupKV, Option.orElse]
  | cons p rest ih =>
    rw [List.foldl_cons, ih]
    have hlast : lookupLastKV (p :: rest) q =
        (lookupLastKV rest q).orElse (fun _ => lookupKV [p] q) := by
      show lookupKV (p :: rest).reverse q = _
      rw [List.reverse_cons, lookupKV_append]
      exact rfl
    rw [hlast, lookupKV_setBinding]
    cases hres : lookupLastKV rest q with
    | some v => simp [Option.orElse]
    | none =>
      by_cases hpq : p.1 = q <;> simp [Option.orElse, lookupKV, hpq]

theorem lookupLastKV_append (a b : List (String × String)) (q : String) :
    lookupLastKV (a ++ b) q = (lookupLastKV b q).orElse (fun _ => lookupLastKV a q) := by
  unfold lookupLastKV
  rw [List.reverse_append, lookupKV_append]

/-- One application of an env-binding option: a single `WithEnvBinding` pair
or a `WithEnvBindings` batch. -/
inductive BindOp where
  | single (envKey configPath : String)
  | batch (bindings : List (String × String))

/-- Apply one binding option to an options value. -/
def applyBindOp : BindOp → options → options
  | .single k v, o => withEnvBinding k v o
  | .batch bs, o => withEnvBindings bs o

/-- Apply a sequence of binding options, first element first. -/
def applyBindOps : List BindOp → options → options
  | [], o => o
  | op :: rest, o => applyBindOps rest (applyBindOp op o)

/-- The pairs one binding option supplies. -/
def bindOpPairs : BindOp → List (String × String)
  | .single k v => [(k, v)]
  | .batch bs => bs

/-- All pairs a sequence of binding options supplies, in application order. -/
def bindPairs (ops : List BindOp) : List (String × String) :=
  (ops.map bindOpPairs).flatten

/-- The environment-variable names a binding option touches. -/
def bindOpKeys (op : BindOp) : List String :=
  (bindOpPairs op).map (fun p => p.1)

theorem lookupKV_applyBindOp (op : BindOp) (o : options) (q : String) :
    lookupKV (applyBindOp op o).envBindings q =
      (lookupLastKV (bindOpPairs op) q).orElse (fun _ => lookupKV o.envBindings q) := by
  cases op with
  | single k v =>
    show lookupKV (setBinding o.envBindings k v) q = _
    rw [lookupKV_setBinding]
    by_cases h : k = q <;>
      simp [bindOpPairs, lookupLastKV, lookupKV, h, Option.orElse]
  | batch bs =>
    exact lookupKV_foldl_setBinding bs o.envBindings q

theorem lookupKV_applyBindOps (ops : List BindOp) (o : options) (q : String) :
    lookupKV (applyBindOps ops o).envBindings q =
      (lookupLastKV (bindPairs ops) q).orElse (fun _ => lookupKV o.envBindings q) := by
  induction ops generalizing o with
  | nil => simp [applyBindOps, bindPairs, lookupLastKV, lookupKV, Option.orElse]
  | cons op rest ih =>
    have hpairs : bindPairs (op :: rest) = bindOpPairs op ++ bindPairs rest := by
      simp [bindPairs]
    rw [applyBindOps, ih, lookupKV_applyBindOp, hpairs, lookupLastKV_append]
    cases hres : lookupLastKV (bindPairs rest) q <;> simp [Option.orElse]

theorem lookupKV_eq_none (ps : List (String × String)) (q : String)
    (h : q ∉ ps.map (fun p => p.1)) : lookupKV ps q = none := by
  induction ps with
  | nil => rfl
  | cons p rest ih =>
    simp only [List.map_cons, List.mem_cons] at h
    push_neg at h
    rw [lookupKV, if_neg (fun e => h.1 e.symm), ih h.2]

theorem lookupLastKV_eq_none (ps : List (String × String)) (q : String)
    (h : q ∉ ps.map (fun p => p.1)) : lookupLastKV ps q = none := by
  apply lookupKV_eq_none
  rw [List.map_reverse]
  simpa using h

/-! ### Claims -/

/-- C2: for every environment-variable prefix `P` and configuration key `K`,
the prefix-derived variable name is deterministic (the derivation is a pure
function) and equals `P` concatenated with `K` uppercased after replacing
every `.` and `-` by `_`; in particular prefix `MYAPP_` and key
`client.rev-auth-user` yield `MYAPP_CLIENT_REV_AUTH_USER`. -/
theorem claim_C2_deriveEnvVar :
    (∀ p k : String, deriveEnvVar p k = deriveEnvVarSpec p k) ∧
      deriveEnvVar "MYAPP_" "client.rev-auth-user" = "MYAPP_CLIENT_REV_AUTH_USER" := by
  constructor
  · intro p k
    unfold deriveEnvVar deriveEnvVarSpec
    rw [deriveEnvVarChars_eq]
  · decide

/-- C10: for every sequence of `WithEnvBinding`/`WithEnvBindings`
applications, the resulting `envBindings` mapping is the accumulated union of
all supplied pairs — later options merge into, not replace, earlier ones (the
lookup falls back to the bindings already present) — and when the same
environment-variable name is bound more than once, the configuration path of
the most recently applied option is the one retained (`lookupLastKV`). -/
theorem claim_C10_envBindings_accumulate (ops : List BindOp) (o : options) (q : String) :
    lookupKV (applyBindOps ops o).envBindings q =
      (lookupLastKV (bindPairs ops) q).orElse (fun _ => lookupKV o.envBindings q) :=
  lookupKV_applyBindOps ops o q

/-- C5 counterexample: applying `WithEnvBinding "A" "x"` then
`WithEnvBinding "A" "y"` does not yield the same `envBindings` mapping as the
two applications in the opposite order — the later application wins, so the
claim that insertion order is always irrelevant fails on the code. -/
theorem claim_C5_counterexample :
    ¬ lookupKV ((withEnvBinding "A" "y" (withEnvBinding "A" "x" defaultOptions)).envBindings) "A" =
        lookupKV ((withEnvBinding "A" "x" (withEnvBinding "A" "y" defaultOptions)).envBindings) "A" := by
  decide

/-- C5 (amended): in the `envBindings` mapping keys are unique, and insertion
order of two `WithEnvBinding`/`WithEnvBindings` applications is irrelevant
whenever the two applications bind disjoint sets of environment-variable
names: applying them in either order yields the same mapping. -/
theorem claim_C5_amended_binding_order (a b : BindOp) (o : options)
    (hdisj : ∀ k, k ∈ bindOpKeys a → k ∉ bindOpKeys b) (q : String) :
    lookupKV (applyBindOps [a, b] o).envBindings q =
      lookupKV (applyBindOps [b, a] o).envBindings q := by
  rw [lookupKV_applyBindOps, lookupKV_applyBindOps]
  have hp1 : bindPairs [a, b] = bindOpPairs a ++ bindOpPairs b := by simp [bindPairs]
  have hp2 : bindPairs [b, a] = bindOpPairs b ++ bindOpPairs a := by simp [bindPairs]
  rw [hp1, hp2, lookupLastKV_append, lookupLastKV_append]
  by_cases hqa : q ∈ bindOpKeys a
  · have hnb : lookupLastKV (bindOpPairs b) q = none :=
      lookupLastKV_eq_none _ _ (hdisj q hqa)
    rw [hnb]
    cases lookupLastKV (bindOpPairs a) q <;> simp [Option.orElse]
  · have hna : lookupLastKV (bindOpPairs a) q = none :=
      lookupLastKV_eq_none _ _ hqa
    rw [hna]
    cases lookupLastKV (bindOpPairs b) q <;> simp [Option.orElse]

/-- Witness for the amended C5: a single binding and a batch over disjoint
environment-variable names commute at every lookup point. -/
theorem claim_C5_amended_binding_order_witness :
    (∀ k, k ∈ bindOpKeys (.single "A" "x") →
      k ∉ bindOpKeys (.batch [("B", "y"), ("C", "z")])) ∧
    lookupKV (applyBindOps [.single "A" "x", .batch [("B", "y"), ("C", "z")]]
        defaultOptions).envBindings "A" =
      lookupKV (applyBindOps [.batch [("B", "y"), ("C", "z")], .single "A" "x"]
        defaultOptions).envBindings "A" :=
  ⟨by decide,
    claim_C5_amended_binding_order (.single "A" "x") (.batch [("B", "y"), ("C", "z")])
      defaultOptions (by decide) "A"⟩

/-- C4: `WithBaseDir` records both the given path and the explicit
`baseDirSet` flag, so `WithBaseDir("")` is distinguishable from never
applying the option: with `WithBaseDir("")` the base directory is the
current working directory, while with the flag unset (in particular for the
zero options value) the base directory comes from project-root
auto-detection. -/
theorem claim_C4_withBaseDir :
    (∀ (p : String) (o : options),
      (withBaseDir p o).baseDir = p ∧ (withBaseDir p o).baseDirSet = true) ∧
    (∀ (o : options) (w : World), resolveBaseDir (withBaseDir "" o) w = w.cwd) ∧
    defaultOptions.baseDirSet = false ∧
    (∀ (o : options) (w : World), o.baseDirSet = false →
      resolveBaseDir o w = w.projectRoot) := by
  refine ⟨fun p o => ⟨rfl, rfl⟩, fun o w => ?_, rfl, fun o w h => ?_⟩
  · simp [resolveBaseDir, withBaseDir]
  · simp [resolveBaseDir, h]

/-- Witness for C4 at concrete inputs: with cwd `/work` and project root
`/proj`, `WithBaseDir("")` resolves to `/work` while the untouched options
resolve to `/proj`. -/
theorem claim_C4_withBaseDir_witness :
    defaultOptions.baseDirSet = false ∧
    resolveBaseDir (withBaseDir "" defaultOptions)
      { fs := fun _ => none, env := fun _ => none, cwd := "/work", projectRoot := "/proj" } =
      "/work" ∧
    resolveBaseDir defaultOptions
      { fs := fun _ => none, env := fun _ => none, cwd := "/work", projectRoot := "/proj" } =
      "/proj" :=
  ⟨rfl,
    claim_C4_withBaseDir.2.1 defaultOptions
      { fs := fun _ => none, env := fun _ => none, cwd := "/work", projectRoot := "/proj" },
    claim_C4_withBaseDir.2.2.2 defaultOptions
      { fs := fun _ => none, env := fun _ => none, cwd := "/work", projectRoot := "/proj" } rfl⟩

/-- C8: when template expansion is disabled by applying
`WithoutTemplateExpansion`, expansion returns the raw text unchanged for
every input text — in particular any literal `\x7b\x7b...\x7d\x7d` sequences
in it are preserved as they are part of the unchanged text. -/
theorem claim_C8_expansion_disabled (o : options) (env : EnvC) (t : List Char) :
    expandTemplate (withoutTemplateExpansion o) env t = .ok t := rfl

/-- C9: template expansion is idempotent — when the first expansion succeeds
and its output contains no unresolved template syntax (no remaining opening
marker), a second pass does not raise an error and returns the text
unchanged, so `expand (expand text) = expand text`. -/
theorem claim_C9_expand_idempotent (o : options) (env : EnvC) (t t' : List Char)
    (h1 : expandTemplate o env t = .ok t') (h2 : hasOpenMarker t' = false) :
    expandTemplate o env t' = .ok t' ∧
      expandTemplate o env t' = expandTemplate o env t := by
  have hmain : expandTemplate o env t' = .ok t' := by
    unfold expandTemplate
    by_cases hd : o.noTemplateExpansion
    · rw [if_pos hd]
    · rw [if_neg hd]
      exact expandAuxF_no_marker env t'.length t' le_rfl h2
  exact ⟨hmain, hmain.trans h1.symm⟩

/-- Witness for C9: expanding a text with one `env` expression yields marker-
free output, and the second pass returns it unchanged without error. -/
theorem claim_C9_expand_idempotent_witness :
    expandTemplate defaultOptions (fun v => if v = ['A'] then some ['b'] else none)
        ("\x7b\x7benv \"A\"\x7d\x7d!").data = .ok ("b!").data ∧
    hasOpenMarker ("b!").data = false ∧
    (expandTemplate defaultOptions (fun v => if v = ['A'] then some ['b'] else none)
        ("b!").data = .ok ("b!").data ∧
      expandTemplate defaultOptions (fun v => if v = ['A'] then some ['b'] else none)
          ("b!").data =
        expandTemplate defaultOptions (fun v => if v = ['A'] then some ['b'] else none)
          ("\x7b\x7benv \"A\"\x7d\x7d!").data) :=
  ⟨rfl, rfl,
    claim_C9_expand_idempotent defaultOptions
      (fun v => if v = ['A'] then some ['b'] else none)
      ("\x7b\x7benv \"A\"\x7d\x7d!").data ("b!").data rfl rfl⟩

/-- C1: the precedence law.  For every key, the merged value is the value of
the highest-priority source that sets the key, under the fixed order
Default < File < prefix-derived < file-declared (`envBindKey`) <
code-declared (`envBindings`) < explicitly-set CLI flag; the compiled-in
default survives only when every other source yields `none` for that key.
The second conjunct is spec Scenario B: the file sets `redis.url` to `a`,
the code binds `REDIS_URL` to `redis.url`, and `REDIS_URL=b` is set, so the
merged `redis.url` is `b`. -/
theorem claim_C1_precedence :
    (∀ (o : options) (w : World) (fileTree : Tree) (knownKeys : List String)
      (defaults : Tree) (k : String),
      lookupKV (mergeAll o w fileTree knownKeys defaults) k =
        (flagSourceVal o k).orElse (fun _ =>
          (codeBindSourceVal o w k).orElse (fun _ =>
            (fileBindSourceVal o w fileTree k).orElse (fun _ =>
              (prefixSourceVal o w knownKeys k).orElse (fun _ =>
                (lookupKV fileTree k).orElse (fun _ => lookupKV defaults k)))))) ∧
    lookupKV
      (mergeAll (withEnvBinding "REDIS_URL" "redis.url" defaultOptions)
        { fs := fun _ => none
          env := fun s => if s = "REDIS_URL" then some "b" else none
          cwd := "/w", projectRoot := "/p" }
        [("redis.url", "a")] [] [])
      "redis.url" = some "b" := by
  constructor
  · intro o w fileTree knownKeys defaults k
    cases hcmd : o.cmd with
    | none =>
      simp only [mergeAll, hcmd, flagSourceVal, mergeEnvSources, lookupKV_overlayT,
        codeBindSourceVal, fileBindSourceVal, prefixSourceVal]
      rfl
    | some c =>
      simp only [mergeAll, hcmd, flagSourceVal, mergeEnvSources, lookupKV_overlayT,
        codeBindSourceVal, fileBindSourceVal, prefixSourceVal]
  · decide

theorem lookupKV_flagList_none (fs : List Flag) (k : String)
    (h : ∀ f ∈ fs, f.key = k → f.isSet = false) :
    lookupKV (fs.filterMap (fun f => if f.isSet then some (f.key, f.value) else none)) k =
      none := by
  induction fs with
  | nil => rfl
  | cons f rest ih =>
    rw [List.filterMap_cons]
    by_cases hset : f.isSet
    · have hk : ¬f.key = k := fun e => by simpa [hset] using h f (by simp) e
      simp only [if_pos hset]
      rw [lookupKV, if_neg hk]
      exact ih (fun g hg e => h g (by simp [hg]) e)
    · simp only [if_neg hset]
      exact ih (fun g hg e => h g (by simp [hg]) e)

theorem lookupKV_flagOverlay_none (c : Cmd) (k : String)
    (h : ∀ f ∈ c.flags, f.key = k → f.isSet = false) :
    lookupKV (flagOverlay c) k = none :=
  lookupKV_flagList_none c.flags k h

/-- C3: when a flag command is supplied, the merge overlays only flags the
caller explicitly set: for a key whose flags were all left at their library
default (not explicitly set), the merged value equals the value produced by
the lower-priority sources alone — an unset flag never overrides them. -/
theorem claim_C3_unset_flag_never_overrides (o : options) (w : World) (fileTree : Tree)
    (knownKeys : List String) (defaults : Tree) (c : Cmd) (k : String)
    (hcmd : o.cmd = some c)
    (hunset : ∀ f ∈ c.flags, f.key = k → f.isSet = false) :
    lookupKV (mergeAll o w fileTree knownKeys defaults) k =
      lookupKV (mergeEnvSources o w fileTree knownKeys defaults) k := by
  simp only [mergeAll, hcmd, lookupKV_overlayT]
  rw [lookupKV_flagOverlay_none c k hunset]
  rfl

/-- Witness for C3, spec Scenario E: the flag `port` carries its library
default `8080` but was not explicitly set, the file sets `port: 9090`, and
the merged `port` is `9090`. -/
theorem claim_C3_unset_flag_never_overrides_witness :
    ((withCommand ⟨[⟨"port", "8080", false⟩]⟩ defaultOptions).cmd =
        some (⟨[⟨"port", "8080", false⟩]⟩ : Cmd)) ∧
    (∀ f ∈ (⟨[⟨"port", "8080", false⟩]⟩ : Cmd).flags, f.key = "port" → f.isSet = false) ∧
    lookupKV
        (mergeAll (withCommand ⟨[⟨"port", "8080", false⟩]⟩ defaultOptions)
          { fs := fun _ => none, env := fun _ => none, cwd := "/w", projectRoot := "/p" }
          [("port", "9090")] [] []) "port" =
      lookupKV
        (mergeEnvSources (withCommand ⟨[⟨"port", "8080", false⟩]⟩ defaultOptions)
          { fs := fun _ => none, env := fun _ => none, cwd := "/w", projectRoot := "/p" }
          [("port", "9090")] [] []) "port" ∧
    lookupKV
        (mergeEnvSources (withCommand ⟨[⟨"port", "8080", false⟩]⟩ defaultOptions)
          { fs := fun _ => none, env := fun _ => none, cwd := "/w", projectRoot := "/p" }
          [("port", "9090")] [] []) "port" = some "9090" :=
  ⟨rfl, by decide,
    claim_C3_unset_flag_never_overrides (withCommand ⟨[⟨"port", "8080", false⟩]⟩ defaultOptions)
      { fs := fun _ => none, env := fun _ => none, cwd := "/w", projectRoot := "/p" }
      [("port", "9090")] [] [] ⟨[⟨"port", "8080", false⟩]⟩ "port" rfl (by decide),
    by decide⟩

/-- C6: if decoding the discovered config file fails, the whole resolution
fails with a `decodeError` — the caller receives an `Except.error`, never a
partially merged tree. -/
theorem claim_C6_decode_failure_fatal (o : options) (w : World)
    (decode : List Char → Except String Tree) (defaults : Tree) (knownKeys : List String)
    (path : String) (raw expanded : List Char) (e : String)
    (hdisc : discoverConfigFile o w (resolveBaseDir o w) = some path)
    (hread : w.fs path = some raw)
    (hexp : expandTemplate o (envC w) raw = .ok expanded)
    (hdec : decode expanded = .error e) :
    resolve o w decode defaults knownKeys = .error (.decodeError e) := by
  unfold resolve
  rw [hdisc]
  simp only [hread, hexp, hdec]

/-- Witness for C6: a discovered one-byte file whose decoder always fails
makes the whole resolution fail with that decode error. -/
theorem claim_C6_decode_failure_fatal_witness :
    discoverConfigFile (withConfigPaths ["c.yaml"] defaultOptions)
        { fs := fun s => if s = "/p/c.yaml" then some ['a'] else none
          env := fun _ => none, cwd := "/w", projectRoot := "/p" }
        (resolveBaseDir (withConfigPaths ["c.yaml"] defaultOptions)
          { fs := fun s => if s = "/p/c.yaml" then some ['a'] else none
            env := fun _ => none, cwd := "/w", projectRoot := "/p" }) = some "/p/c.yaml" ∧
    ({ fs := fun s => if s = "/p/c.yaml" then some ['a'] else none
       env := fun _ => none, cwd := "/w", projectRoot := "/p" } : World).fs "/p/c.yaml" =
      some ['a'] ∧
    expandTemplate (withConfigPaths ["c.yaml"] defaultOptions)
        (envC { fs := fun s => if s = "/p/c.yaml" then some ['a'] else none
                env := fun _ => none, cwd := "/w", projectRoot := "/p" }) ['a'] = .ok ['a'] ∧
    (fun _ : List Char => (.error "bad" : Except String Tree)) ['a'] = .error "bad" ∧
    resolve (withConfigPaths ["c.yaml"] defaultOptions)
        { fs := fun s => if s = "/p/c.yaml" then some ['a'] else none
          env := fun _ => none, cwd := "/w", projectRoot := "/p" }
        (fun _ => .error "bad") [] [] = .error (.decodeError "bad") :=
  ⟨rfl, rfl, rfl, rfl,
    claim_C6_decode_failure_fatal (withConfigPaths ["c.yaml"] defaultOptions)
      { fs := fun s => if s = "/p/c.yaml" then some ['a'] else none
        env := fun _ => none, cwd := "/w", projectRoot := "/p" }
      (fun _ => .error "bad") [] [] "/p/c.yaml" ['a'] ['a'] "bad" rfl rfl rfl rfl⟩

theorem firstExisting_append (w : World) (b : String) (l1 : List String) (p : String)
    (l2 : List String)
    (hnone : ∀ q ∈ l1, w.fs (resolvePath b q) = none)
    (hsome : (w.fs (resolvePath b p)).isSome = true) :
    firstExisting w b (l1 ++ p :: l2) = some (resolvePath b p) := by
  induction l1 with
  | nil =>
    rw [List.nil_append, firstExisting, if_pos hsome]
  | cons a rest ih =>
    have ha : w.fs (resolvePath b a) = none := hnone a (by simp)
    rw [List.cons_append, firstExisting, ha]
    simp only [Option.isSome_none, Bool.false_eq_true, if_false]
    exact ih (fun q hq => hnone q (by simp [hq]))

/-- C7: config-file discovery resolves each relative candidate against the
base directory and returns the first candidate, in list order, whose
resolved path exists; and when no candidate exists, "not found" is
non-fatal — resolution still succeeds, merging only the remaining sources
(defaults, environment, flags). -/
theorem claim_C7_discover_first_match_not_found_nonfatal :
    (∀ (o : options) (w : World) (b : String) (l1 : List String) (p : String)
      (l2 : List String),
      o.configPaths = l1 ++ p :: l2 →
      (∀ q ∈ l1, w.fs (resolvePath b q) = none) →
      (w.fs (resolvePath b p)).isSome = true →
      discoverConfigFile o w b = some (resolvePath b p)) ∧
    (∀ (o : options) (w : World) (decode : List Char → Except String Tree)
      (defaults : Tree) (knownKeys : List String),
      discoverConfigFile o w (resolveBaseDir o w) = none →
      resolve o w decode defaults knownKeys = .ok (mergeAll o w [] knownKeys defaults)) := by
  constructor
  · intro o w b l1 p l2 hpaths hnone hsome
    have hne : (l1 ++ p :: l2).isEmpty = false := by cases l1 <;> rfl
    unfold discoverConfigFile candidatePaths
    rw [hpaths, hne]
    simp only [Bool.false_eq_true, if_false]
    exact firstExisting_append w b l1 p l2 hnone hsome
  · intro o w decode defaults knownKeys hdisc
    unfold resolve
    rw [hdisc]

/-- Witness for C7: with candidates `a.yaml, b.yaml` and only `/p/b.yaml`
present, discovery returns `/p/b.yaml`; and with no file present at all,
resolution still returns a merged tree. -/
theorem claim_C7_discover_witness :
    ((withConfigPaths ["a.yaml", "b.yaml"] defaultOptions).configPaths =
      ["a.yaml"] ++ "b.yaml" :: []) ∧
    (∀ q ∈ ["a.yaml"],
      ({ fs := fun s => if s = "/p/b.yaml" then some ['x'] else none
         env := fun _ => none, cwd := "/w", projectRoot := "/p" } : World).fs
        (resolvePath "/p" q) = none) ∧
    (({ fs := fun s => if s = "/p/b.yaml" then some ['x'] else none
        env := fun _ => none, cwd := "/w", projectRoot := "/p" } : World).fs
      (resolvePath "/p" "b.yaml")).isSome = true ∧
    discoverConfigFile (withConfigPaths ["a.yaml", "b.yaml"] defaultOptions)
        { fs := fun s => if s = "/p/b.yaml" then some ['x'] else none
          env := fun _ => none, cwd := "/w", projectRoot := "/p" } "/p" =
      some (resolvePath "/p" "b.yaml") ∧
    discoverConfigFile defaultOptions
        { fs := fun _ => none, env := fun _ => none, cwd := "/w", projectRoot := "/p" }
        (resolveBaseDir defaultOptions
          { fs := fun _ => none, env := fun _ => none, cwd := "/w", projectRoot := "/p" }) =
      none ∧
    resolve defaultOptions
        { fs := fun _ => none, env := fun _ => none, cwd := "/w", projectRoot := "/p" }
        (fun _ => .ok []) [("d", "1")] [] =
      .ok (mergeAll defaultOptions
        { fs := fun _ => none, env := fun _ => none, cwd := "/w", projectRoot := "/p" }
        [] [] [("d", "1")]) :=
  ⟨rfl, by decide, by decide,
    claim_C7_discover_first_match_not_found_nonfatal.1
      (withConfigPaths ["a.yaml", "b.yaml"] defaultOptions)
      { fs := fun s => if s = "/p/b.yaml" then some ['x'] else none
        env := fun _ => none, cwd := "/w", projectRoot := "/p" }
      "/p" ["a.yaml"] "b.yaml" [] rfl (by decide) (by decide),
    rfl,
    claim_C7_discover_first_match_not_found_nonfatal.2 defaultOptions
      { fs := fun _ => none, env := fun _ => none, cwd := "/w", projectRoot := "/p" }
      (fun _ => .ok []) [("d", "1")] [] rfl⟩

end Cfgm
